import Mathlib

/-!
# Verification of the go-proxy-server request pipeline

A shallow embedding, in Lean 4, of the parts of the proxy server that the
specification makes claims about: override-rule selection with stateful
trigger counting (`findMatchingOverride`), hop-by-hop header scrubbing
(`copyHeaders` / `shouldSkipHeader`), the TTL response cache
(`getCachedResponse`, `cacheResponse`, `loadCacheFromDisk`), cache URL
gating (`matchURLPattern`, `shouldCacheURL`), cache keying
(`generateCacheKey`), and the buffered response pipeline (body rewriting
with the gzip round trip, Content-Length handling, cache store and replay).

Modelling conventions:
* Go byte slices are `List Char` (one `Char` per byte).
* `time.Time` is a `Nat` tick count; `time.Now().Before(t)` is `<`.
* Go `int` counters are `Int` (the config uses `-1` for `max_triggers`).
* `http.Header` is a `List (String × String)` multimap of name/value
  pairs; `Add` appends a pair, `Set` replaces all pairs of the key,
  `Get` returns the first value or the empty string, as in `net/http`.
* A compiled `regexp.Regexp` is abstracted as a `RegexModel`: a match
  predicate on strings plus a function giving the list of leftmost,
  non-overlapping match spans used by `ReplaceAll`.  `ReplaceAll` with an
  empty span list returns its input unchanged, which is the only regexp
  fact the theorems below rely on.
-/

namespace ProxyServer

/-- A byte string on the wire.  `compress/gzip` is modelled shallowly: a
gzip stream is represented by its decompressed content together with the
RFC 1952 MTIME header field, the envelope metadata that is not determined
by the content.  `gzip.NewWriter` (used by `compressGzip` in the source)
always writes MTIME ,= 0 when no header is set, while an origin server may
send any MTIME, so compressing is not a left inverse of decompressing on
envelopes.  The exact DEFLATE encoding is abstracted away; `byteLen` of a
gzip stream counts the 18 minimum envelope bytes plus the payload and is
only ever compared against itself or against zero. -/
inductive ByteStream
  | plain (data : List Char)
  | gzipped (mtime : Nat) (content : List Char)
deriving DecidableEq, Repr

/-- Length in bytes of a wire body, used by the source only in
`len(responseBody) > 0` tests and to print `Content-Length`. -/
def ByteStream.byteLen : ByteStream → Nat
  | .plain d => d.length
  | .gzipped _ c => 18 + c.length

/-- The raw bytes of a wire body viewed as data.  For a `plain` body these
are the bytes themselves.  The source only takes this view of a body whose
gzip decompression failed, which in this model is always a `plain` body;
the `gzipped` branch is supplied for totality. -/
def ByteStream.rawBytes : ByteStream → List Char
  | .plain d => d
  | .gzipped _ c => c

/-- `decompressGzip` (source): gunzip the data or fail.  In the model a
`plain` body is never a valid gzip stream. -/
def decompressGzip : ByteStream → Option (List Char)
  | .plain _ => none
  | .gzipped _ c => some c

/-- `compressGzip` (source): gzip the data with `gzip.NewWriter`, which
writes MTIME = 0.  Writing to a `bytes.Buffer` cannot fail, so the error
branches of the source are dead and the model is total. -/
def compressGzip (d : List Char) : ByteStream := .gzipped 0 d

/-- `strings.HasPrefix`-style test on byte lists: `pat` begins `s`. -/
def startsWithL : List Char → List Char → Bool
  | _, [] => true
  | [], _ :: _ => false
  | c :: s, p :: ps => c == p && startsWithL s ps

/-- `strings.Contains urlPath pat`: `pat` occurs somewhere in `s`
(the empty pattern occurs in every string). -/
def containsSub (s pat : List Char) : Bool :=
  match s with
  | [] => startsWithL [] pat
  | _ :: s2 => startsWithL s pat || containsSub s2 pat

/-- Scanning loop of `bytes.Count` for a non-empty separator: count
non-overlapping occurrences left to right. -/
def countA (s pat : List Char) : Nat :=
  match s with
  | [] => 0
  | c :: s2 =>
    if h : pat ≠ [] ∧ startsWithL (c :: s2) pat = true then
      1 + countA ((c :: s2).drop pat.length) pat
    else
      countA s2 pat
termination_by s.length
decreasing_by
  · have hp : 0 < pat.length := List.length_pos.mpr h.1
    simp only [List.length_drop, List.length_cons]
    omega
  · simp only [List.length_cons]
    omega

/-- `bytes.Count`: for an empty separator Go returns one more than the
number of code points (here: bytes), hence always a positive count. -/
def countOccur (s pat : List Char) : Nat :=
  match pat with
  | [] => s.length + 1
  | _ :: _ => countA s pat

/-- Scanning loop of `bytes.ReplaceAll` for a non-empty pattern: replace
non-overlapping occurrences left to right. -/
def replaceA (s pat rep : List Char) : List Char :=
  match s with
  | [] => []
  | c :: s2 =>
    if h : pat ≠ [] ∧ startsWithL (c :: s2) pat = true then
      rep ++ replaceA ((c :: s2).drop pat.length) pat rep
    else
      c :: replaceA s2 pat rep
termination_by s.length
decreasing_by
  · have hp : 0 < pat.length := List.length_pos.mpr h.1
    simp only [List.length_drop, List.length_cons]
    omega
  · simp only [List.length_cons]
    omega

/-- `bytes.ReplaceAll`: with an empty pattern Go inserts the replacement
before every byte and at the end; otherwise it replaces every
non-overlapping occurrence. -/
def replaceAllL (s pat rep : List Char) : List Char :=
  match pat with
  | [] => rep ++ s.foldr (fun c acc => c :: (rep ++ acc)) []
  | _ :: _ => replaceA s pat rep

/-- Abstraction of a compiled `regexp.Regexp`: `matchString` is
`MatchString`; `matchSpans` gives the leftmost non-overlapping match
spans (start offset, length) in increasing position order, as consumed by
`ReplaceAll`. -/
structure RegexModel where
  matchString : String → Bool
  matchSpans : List Char → List (Nat × Nat)

/-- Semantics of `regexp.ReplaceAll` over a span list: splice the
replacement over each span.  An empty span list leaves the input
untouched. -/
def spliceSpans : List Char → List (Nat × Nat) → List Char → List Char
  | b, [], _ => b
  | b, (i, n) :: rest, rep =>
      b.take i ++ rep ++
        spliceSpans (b.drop (i + n)) (rest.map (fun q => (q.1 - (i + n), q.2))) rep
termination_by _ spans _ => spans.length

/-- `BodyReplacement` (source): one find/replace rule for response
bodies. -/
structure BodyReplacement where
  find : String
  replace : String
  isRegex : Bool
  compiledRegex : Option RegexModel

/-- `ResponseOverride` (source): one override rule with its two
non-serialised counters.  `compiledRegex` is the compiled URL pattern when
`isRegex` is set. -/
structure ResponseOverride where
  name : String
  method : String
  urlPattern : String
  isRegex : Bool
  statusCode : Int
  headers : List (String × String)
  bodyFile : String
  bodyText : String
  bodyReplacements : List BodyReplacement
  enabled : Bool
  triggerAfter : Int
  maxTriggers : Int
  resetAfter : Int
  compiledRegex : Option RegexModel
  requestCount : Int
  triggerCount : Int

/-- ASCII reading of `strings.EqualFold` (HTTP methods are ASCII): equal
after lower-casing both sides. -/
def eqFold (a b : String) : Bool := a.toLower == b.toLower

/-- The method test of `findMatchingOverride`: skip the rule when its
method is not `*` and differs case-insensitively from the request
method. -/
def methodSkips (o : ResponseOverride) (method : String) : Bool :=
  o.method != "*" && !(eqFold o.method method)

/-- The URL test of `findMatchingOverride`: regex rules match via the
compiled pattern (a rule whose pattern failed to compile never matches),
plain rules match by substring containment. -/
def urlMatches (o : ResponseOverride) (urlPath : String) : Bool :=
  if o.isRegex then
    match o.compiledRegex with
    | some re => re.matchString urlPath
    | none => false
  else
    containsSub urlPath.data o.urlPattern.data

/-- `findMatchingOverride` (source): walk the rules in declaration order.
A matched rule increments its request counter; if `reset_after` is
reached both counters reset and the walk continues; otherwise the rule
fires when the counter exceeds `trigger_after` and the trigger limit is
not exhausted, incrementing the trigger counter and returning the rule.
A matched rule that does not fire leaves the walk to continue with the
next rule.  The result pairs the fired rule (if any) with the updated
rule list, making the in-place counter mutation explicit. -/
def findMatchingOverride (method urlPath : String) :
    List ResponseOverride → Option ResponseOverride × List ResponseOverride
  | [] => (none, [])
  | o :: rest =>
    if !o.enabled || methodSkips o method || !(urlMatches o urlPath) then
      let r := findMatchingOverride method urlPath rest
      (r.1, o :: r.2)
    else
      let o1 : ResponseOverride := { o with requestCount := o.requestCount + 1 }
      if o1.resetAfter > 0 ∧ o1.requestCount ≥ o1.resetAfter then
        let o2 : ResponseOverride := { o1 with requestCount := 0, triggerCount := 0 }
        let r := findMatchingOverride method urlPath rest
        (r.1, o2 :: r.2)
      else
        if (o1.requestCount > o1.triggerAfter) ∧
            ¬(o1.maxTriggers > 0 ∧ o1.triggerCount ≥ o1.maxTriggers) then
          let o2 : ResponseOverride := { o1 with triggerCount := o1.triggerCount + 1 }
          (some o2, o2 :: rest)
        else
          let r := findMatchingOverride method urlPath rest
          (r.1, o1 :: r.2)

/-- `findMatchingOverrideForReplacements` (source): counter-free rule
lookup restricted to rules that carry body replacements. -/
def findMatchingOverrideForReplacements (method urlPath : String) :
    List ResponseOverride → Option ResponseOverride
  | [] => none
  | o :: rest =>
    if !o.enabled || o.bodyReplacements.isEmpty || methodSkips o method ||
        !(urlMatches o urlPath) then
      findMatchingOverrideForReplacements method urlPath rest
    else
      some o

/-- One request processed against the rule list: the updated rule list
(`findMatchingOverride` mutates the counters in place). -/
def stepRules (method urlPath : String) (rules : List ResponseOverride) :
    List ResponseOverride :=
  (findMatchingOverride method urlPath rules).2

/-- Rule-list state after `n` identical requests. -/
def iterRules (method urlPath : String) (rules : List ResponseOverride) :
    Nat → List ResponseOverride
  | 0 => rules
  | n + 1 => stepRules method urlPath (iterRules method urlPath rules n)

/-- For `n` identical requests in sequence, whether each one fired a rule
(`true` = a rule was returned, so the mock response is served; `false` =
passthrough). -/
def traceFires (method urlPath : String) :
    List ResponseOverride → Nat → List Bool
  | _, 0 => []
  | rules, n + 1 =>
    let r := findMatchingOverride method urlPath rules
    r.1.isSome :: traceFires method urlPath r.2 n

/-- The rule of the specification scenario: matches every method, URL
pattern `/bindings`, `trigger_after` 3, `max_triggers` 2, `reset_after`
10, with counters as freshly loaded by `loadConfig`. -/
def bindingsRule : ResponseOverride :=
  { name := "bindings", method := "*", urlPattern := "/bindings",
    isRegex := false, statusCode := 200, headers := [], bodyFile := "",
    bodyText := "MOCK", bodyReplacements := [], enabled := true,
    triggerAfter := 3, maxTriggers := 2, resetAfter := 10,
    compiledRegex := none, requestCount := 0, triggerCount := 0 }

/-- C1: over the rule `trigger_after 3, max_triggers 2, reset_after 10`
that matches every request, ten matching requests give passthrough on
requests 1 to 3, a fire on requests 4 and 5, passthrough on requests 6 to
10 with both counters reset to zero during request 10, and request 11
behaves like request 1 of a fresh cycle; in general a matched rule fires
exactly when, after incrementing the request counter and not resetting,
the request counter exceeds `trigger_after` and the trigger counter is
still below a positive `max_triggers`. -/
theorem proxy_C1 :
    (traceFires "GET" "/bindings" [bindingsRule] 11 =
        [false, false, false, true, true,
         false, false, false, false, false, false] ∧
      (iterRules "GET" "/bindings" [bindingsRule] 10).map
          (fun o => (o.requestCount, o.triggerCount)) = [(0, 0)] ∧
      (iterRules "GET" "/bindings" [bindingsRule] 11).map
          (fun o => (o.requestCount, o.triggerCount)) =
        (iterRules "GET" "/bindings" [bindingsRule] 1).map
          (fun o => (o.requestCount, o.triggerCount))) ∧
    (∀ (o : ResponseOverride) (method urlPath : String),
      o.enabled = true →
      methodSkips o method = false →
      urlMatches o urlPath = true →
      ¬(o.resetAfter > 0 ∧ o.requestCount + 1 ≥ o.resetAfter) →
      ((findMatchingOverride method urlPath [o]).1.isSome = true ↔
        (o.requestCount + 1 > o.triggerAfter ∧
          (o.maxTriggers ≤ 0 ∨ o.triggerCount < o.maxTriggers)))) := by
  constructor
  · exact ⟨by decide, by decide, by decide⟩
  · intro o method urlPath hen hms hurl hreset
    have hskip :
        (!o.enabled || methodSkips o method || !(urlMatches o urlPath)) =
          false := by
      simp [hen, hms, hurl]
    have hmain : (findMatchingOverride method urlPath [o]).1.isSome =
        decide ((o.requestCount + 1 > o.triggerAfter) ∧
          ¬(o.maxTriggers > 0 ∧ o.triggerCount ≥ o.maxTriggers)) := by
      by_cases hfire :
          (o.requestCount + 1 > o.triggerAfter) ∧
            ¬(o.maxTriggers > 0 ∧ o.triggerCount ≥ o.maxTriggers)
      · simp [findMatchingOverride, hskip, hreset, hfire]
      · have hcond :
            ¬(o.triggerAfter < o.requestCount + 1 ∧
              (0 < o.maxTriggers → o.triggerCount < o.maxTriggers)) := by
          omega
        simp [findMatchingOverride, hskip, hreset, hfire, hcond]
    rw [hmain]
    simp only [decide_eq_true_eq]
    constructor
    · intro h
      exact ⟨h.1, by omega⟩
    · intro h
      exact ⟨h.1, by omega⟩

/-- Witness for C1: the general fire condition applied to the concrete
`bindingsRule` on its first matching request. -/
theorem proxy_C1_witness :
    ((findMatchingOverride "GET" "/bindings" [bindingsRule]).1.isSome = true ↔
      (bindingsRule.requestCount + 1 > bindingsRule.triggerAfter ∧
        (bindingsRule.maxTriggers ≤ 0 ∨
          bindingsRule.triggerCount < bindingsRule.maxTriggers))) :=
  proxy_C1.2 bindingsRule "GET" "/bindings"
    (by decide) (by decide) (by decide) (by decide)

/-- A rule that matches `/x` but whose trigger threshold (5) is not yet
reached, so a match does not fire. -/
def thresholdRule : ResponseOverride :=
  { name := "first", method := "*", urlPattern := "/x", isRegex := false,
    statusCode := 200, headers := [], bodyFile := "", bodyText := "A",
    bodyReplacements := [], enabled := true, triggerAfter := 5,
    maxTriggers := -1, resetAfter := 0, compiledRegex := none,
    requestCount := 0, triggerCount := 0 }

/-- A second rule that matches `/x` and fires immediately. -/
def immediateRule : ResponseOverride :=
  { name := "second", method := "*", urlPattern := "/x", isRegex := false,
    statusCode := 200, headers := [], bodyFile := "", bodyText := "B",
    bodyReplacements := [], enabled := true, triggerAfter := 0,
    maxTriggers := -1, resetAfter := 0, compiledRegex := none,
    requestCount := 0, triggerCount := 0 }

/-- Counterexample to C2: the first rule matches `GET /x` (alone it
returns no rule, its threshold being unreached), yet with a second
matching rule behind it the selection returns that second rule instead of
stopping with no rule — a non-firing match is not consumed. -/
theorem proxy_C2_cex :
    thresholdRule.enabled = true ∧
    methodSkips thresholdRule "GET" = false ∧
    urlMatches thresholdRule "/x" = true ∧
    (findMatchingOverride "GET" "/x" [thresholdRule]).1.map
        (fun o => o.name) = none ∧
    (findMatchingOverride "GET" "/x" [thresholdRule, immediateRule]).1.map
        (fun o => o.name) = some "second" := by
  refine ⟨rfl, by decide, by decide, rfl, rfl⟩

/-- C2 (amended): a matched rule that does not fire — whether because the
`reset_after` threshold reset its counters, because the trigger threshold
is not yet reached, or because `max_triggers` is exhausted — never stops
the walk: selection continues with the next rule in declaration order,
keeping the matched rule's updated counters. -/
theorem proxy_C2 :
    ∀ (o : ResponseOverride) (rest : List ResponseOverride)
      (method urlPath : String),
      o.enabled = true →
      methodSkips o method = false →
      urlMatches o urlPath = true →
      (((o.resetAfter > 0 ∧ o.requestCount + 1 ≥ o.resetAfter) →
          findMatchingOverride method urlPath (o :: rest) =
            ((findMatchingOverride method urlPath rest).1,
              { o with requestCount := 0, triggerCount := 0 } ::
                (findMatchingOverride method urlPath rest).2)) ∧
        (¬(o.resetAfter > 0 ∧ o.requestCount + 1 ≥ o.resetAfter) →
          ¬(o.requestCount + 1 > o.triggerAfter ∧
              ¬(o.maxTriggers > 0 ∧ o.triggerCount ≥ o.maxTriggers)) →
          findMatchingOverride method urlPath (o :: rest) =
            ((findMatchingOverride method urlPath rest).1,
              { o with requestCount := o.requestCount + 1 } ::
                (findMatchingOverride method urlPath rest).2))) := by
  intro o rest method urlPath hen hms hurl
  have hskip :
      (!o.enabled || methodSkips o method || !(urlMatches o urlPath)) =
        false := by
    simp [hen, hms, hurl]
  constructor
  · intro hreset
    simp [findMatchingOverride, hskip, hreset]
  · intro hreset hfire
    simp only [findMatchingOverride]
    simp [hskip, hreset]
    omega

/-- Witness for C2 (amended): the threshold rule processed in front of the
immediate rule continues the walk and hands the match to the second
rule. -/
theorem proxy_C2_witness :
    findMatchingOverride "GET" "/x" [thresholdRule, immediateRule] =
      ((findMatchingOverride "GET" "/x" [immediateRule]).1,
        { thresholdRule with
            requestCount := thresholdRule.requestCount + 1 } ::
          (findMatchingOverride "GET" "/x" [immediateRule]).2) :=
  (proxy_C2 thresholdRule [immediateRule] "GET" "/x"
    (by decide) (by decide) (by decide)).2 (by decide) (by decide)

/-- The invariant of claim C3: a positive trigger limit is never
exceeded. -/
def TrigInv (rules : List ResponseOverride) : Prop :=
  ∀ o ∈ rules, o.maxTriggers > 0 → o.triggerCount ≤ o.maxTriggers

/-- Rule-list states reachable from `init` by any sequence of
rule-selection operations (each request runs `findMatchingOverride`,
the only operation that mutates the counters). -/
inductive ReachableRules (init : List ResponseOverride) :
    List ResponseOverride → Prop
  | refl : ReachableRules init init
  | step (b : List ResponseOverride) (method urlPath : String) :
      ReachableRules init b →
      ReachableRules init (findMatchingOverride method urlPath b).2

/-- One selection pass preserves the trigger-limit invariant. -/
lemma trigInv_step (method urlPath : String) :
    ∀ rules : List ResponseOverride, TrigInv rules →
      TrigInv (findMatchingOverride method urlPath rules).2 := by
  intro rules
  induction rules with
  | nil => intro _ o ho; simp [findMatchingOverride] at ho
  | cons o rest ih =>
    intro h
    have ho := h o (List.mem_cons_self o rest)
    have hrest : TrigInv rest := fun x hx => h x (List.mem_cons_of_mem _ hx)
    have hrest2 := ih hrest
    simp only [findMatchingOverride]
    split
    · intro x hx
      rcases List.mem_cons.mp hx with hx | hx
      · subst hx; exact ho
      · exact hrest2 x hx
    · split
      · intro x hx
        rcases List.mem_cons.mp hx with hx | hx
        · subst hx
          intro hmt
          dsimp only at hmt ⊢
          omega
        · exact hrest2 x hx
      · split
        · rename_i hfire
          intro x hx
          rcases List.mem_cons.mp hx with hx | hx
          · subst hx
            intro hmt
            dsimp only at hmt ⊢
            try dsimp only at hfire
            have := hfire.2
            omega
          · exact hrest x hx
        · intro x hx
          rcases List.mem_cons.mp hx with hx | hx
          · subst hx
            intro hmt
            dsimp only at hmt ⊢
            exact ho hmt
          · exact hrest2 x hx

/-- C3: starting from the loaded state (both counters zero on every
rule), every state reachable by any sequence of rule-selection
operations keeps `trigger_count ≤ max_triggers` on every rule whose
`max_triggers` is positive. -/
theorem proxy_C3 :
    ∀ (init s : List ResponseOverride),
      (∀ o ∈ init, o.requestCount = 0 ∧ o.triggerCount = 0) →
      ReachableRules init s →
      TrigInv s := by
  intro init s h0 hr
  induction hr with
  | refl =>
    intro o ho hmt
    have := (h0 o ho).2
    omega
  | step b m u _ ih => exact trigInv_step m u b ih

/-- Witness for C3: the loaded one-rule state of the scenario satisfies
the invariant. -/
theorem proxy_C3_witness : TrigInv [bindingsRule] :=
  proxy_C3 [bindingsRule] [bindingsRule]
    (by intro o ho; simp only [List.mem_singleton] at ho; subst ho
        exact ⟨rfl, rfl⟩)
    ReachableRules.refl

/-- ASCII lower-casing of one character, the fragment of Go
`strings.ToLower` relevant to HTTP header names and methods. -/
def asciiLowerChar (c : Char) : Char :=
  if 'A' ≤ c ∧ c ≤ 'Z' then Char.ofNat (c.toNat + 32) else c

/-- ASCII reading of `strings.ToLower`. -/
def lowerStr (s : String) : String := ⟨s.data.map asciiLowerChar⟩

/-- `http.Header` modelled as a multimap: a list of name/value pairs in
insertion order.  `Add` appends a pair, `Set` replaces every pair of the
name, `Get` returns the first value or the empty string, `Del` removes
the name — the `net/http` behaviours used by the source (all source call
sites use canonical header spellings consistently, so MIME
canonicalisation of the key is the identity here). -/
abbrev HeaderMap := List (String × String)

/-- `Header.Add`. -/
def headerAdd (h : HeaderMap) (name value : String) : HeaderMap :=
  h ++ [(name, value)]

/-- `Header.Set`. -/
def headerSet (h : HeaderMap) (name value : String) : HeaderMap :=
  (h.filter (fun p => p.1 != name)) ++ [(name, value)]

/-- `Header.Del`. -/
def headerDel (h : HeaderMap) (name : String) : HeaderMap :=
  h.filter (fun p => p.1 != name)

/-- `Header.Get`: first value of the name, or the empty string. -/
def headerGet (h : HeaderMap) (name : String) : String :=
  match h.find? (fun p => p.1 == name) with
  | some p => p.2
  | none => ""

/-- `shouldSkipHeader` (source): the fixed hop-by-hop list, plus
`Transfer-Encoding` when streaming mode is disabled; the comparison
lower-cases both sides. -/
def shouldSkipHeader (streaming : Bool) (name : String) : Bool :=
  let skipHeaders := ["Connection", "Proxy-Connection", "Proxy-Authenticate",
    "Proxy-Authorization", "Te", "Trailer", "Upgrade"]
  let skipHeaders :=
    if !streaming then skipHeaders ++ ["Transfer-Encoding"] else skipHeaders
  let lowerName := lowerStr name
  skipHeaders.any (fun sk => lowerName == lowerStr sk)

/-- `copyHeaders` (source): copy every value of every non-skipped header
from `src` into `dst`.  The `streaming` flag is the global
`logSettings.EnableStreaming` read by `shouldSkipHeader`. -/
def copyHeaders (streaming : Bool) (dst src : HeaderMap) : HeaderMap :=
  src.foldl
    (fun d p =>
      if shouldSkipHeader streaming p.1 then d else headerAdd d p.1 p.2)
    dst

/-- `copyHeaders` appends exactly the non-skipped pairs of the source. -/
lemma copyHeaders_eq (streaming : Bool) :
    ∀ (src dst : HeaderMap),
      copyHeaders streaming dst src =
        dst ++ src.filter (fun p => !shouldSkipHeader streaming p.1) := by
  intro src
  induction src with
  | nil => intro dst; simp [copyHeaders]
  | cons p rest ih =>
    intro dst
    by_cases hp : shouldSkipHeader streaming p.1
    · have step : copyHeaders streaming dst (p :: rest) =
          copyHeaders streaming dst rest := by
        simp [copyHeaders, hp]
      rw [step, ih, List.filter_cons]
      simp [hp]
    · have step : copyHeaders streaming dst (p :: rest) =
          copyHeaders streaming (headerAdd dst p.1 p.2) rest := by
        simp [copyHeaders, hp]
      rw [step, ih, List.filter_cons]
      simp [hp, headerAdd]

/-- C7: a header crosses the hop exactly when it is not one of the
hop-by-hop names `Connection`, `Proxy-Connection`, `Proxy-Authenticate`,
`Proxy-Authorization`, `Te`, `Trailer`, `Upgrade` (compared
case-insensitively), with `Transfer-Encoding` additionally scrubbed in
buffered mode but copied through in streaming mode: the skip predicate
recognises precisely that set, and every header copy is the identity
filter by that predicate. -/
theorem proxy_C7 :
    (∀ (streaming : Bool) (name : String),
      shouldSkipHeader streaming name = true ↔
        (lowerStr name ∈ (["connection", "proxy-connection",
            "proxy-authenticate", "proxy-authorization", "te", "trailer",
            "upgrade"] : List String) ∨
          (streaming = false ∧ lowerStr name = "transfer-encoding"))) ∧
    (∀ (streaming : Bool) (dst src : HeaderMap),
      copyHeaders streaming dst src =
        dst ++ src.filter (fun p => !shouldSkipHeader streaming p.1)) ∧
    shouldSkipHeader true "Transfer-Encoding" = false ∧
    shouldSkipHeader false "Transfer-Encoding" = true := by
  refine ⟨?_, ?_, by decide, by decide⟩
  · intro streaming name
    have e1 : lowerStr "Connection" = "connection" := by decide
    have e2 : lowerStr "Proxy-Connection" = "proxy-connection" := by decide
    have e3 : lowerStr "Proxy-Authenticate" = "proxy-authenticate" := by
      decide
    have e4 : lowerStr "Proxy-Authorization" = "proxy-authorization" := by
      decide
    have e5 : lowerStr "Te" = "te" := by decide
    have e6 : lowerStr "Trailer" = "trailer" := by decide
    have e7 : lowerStr "Upgrade" = "upgrade" := by decide
    have e8 : lowerStr "Transfer-Encoding" = "transfer-encoding" := by decide
    cases streaming <;>
      simp [shouldSkipHeader, List.any_cons, List.any_nil, List.mem_cons,
        e1, e2, e3, e4, e5, e6, e7, e8] <;>
      tauto
  · intro streaming dst src
    exact copyHeaders_eq streaming src dst

/-- `CacheEntry` (source): one cached response.  `cloneHeaders` in the
source only defends against aliasing of the mutable Go map, so in this
pure model storing the headers stores them as they are. -/
structure CacheEntry where
  statusCode : Int
  headers : HeaderMap
  body : ByteStream
  cachedAt : Nat
  expiresAt : Nat
  requestURL : String
  requestHash : String
deriving DecidableEq, Repr

/-- The `sync.Map` response cache: an association list with unique keys
kept explicit through the store and delete operations. -/
abbrev Cache := List (String × CacheEntry)

/-- `sync.Map.Load`. -/
def mapLoad (c : Cache) (k : String) : Option CacheEntry :=
  (c.find? (fun p => p.1 == k)).map (fun p => p.2)

/-- `sync.Map.Store`: replace any entry of the key, insert otherwise. -/
def mapStore (c : Cache) (k : String) (e : CacheEntry) : Cache :=
  (c.filter (fun p => p.1 != k)) ++ [(k, e)]

/-- `sync.Map.Delete`. -/
def mapDelete (c : Cache) (k : String) : Cache :=
  c.filter (fun p => p.1 != k)

/-- `getCachedResponse` (source): return a found entry only while
`time.Now().Before(ExpiresAt)`; a found expired entry is deleted and the
lookup reports a miss.  The returned cache is the store after the
operation. -/
def getCachedResponse (cache : Cache) (key : String) (now : Nat) :
    Option CacheEntry × Cache :=
  match mapLoad cache key with
  | some entry =>
    if now < entry.expiresAt then (some entry, cache)
    else (none, mapDelete cache key)
  | none => (none, cache)

/-- `cacheResponse` (source): store the response under the key with
`ExpiresAt = now + TTL`. -/
def cacheResponse (cache : Cache) (key : String) (statusCode : Int)
    (headers : HeaderMap) (body : ByteStream) (url : String)
    (now ttl : Nat) : Cache :=
  mapStore cache key
    { statusCode := statusCode, headers := headers, body := body,
      cachedAt := now, expiresAt := now + ttl, requestURL := url,
      requestHash := key }

/-- The filtered-out key is never found in the filtered list. -/
lemma find?_filter_ne_none (c : Cache) (k : String) :
    (c.filter (fun p => p.1 != k)).find? (fun p => p.1 == k) = none := by
  rw [List.find?_eq_none]
  intro x hx
  have := (List.mem_filter.mp hx).2
  simp only [bne_iff_ne, ne_eq] at this
  simp [this]

/-- A stored entry is found under its key. -/
lemma mapLoad_store_self (c : Cache) (k : String) (e : CacheEntry) :
    mapLoad (mapStore c k e) k = some e := by
  unfold mapLoad mapStore
  rw [List.find?_append, find?_filter_ne_none]
  simp

/-- Storing under one key does not change lookups of another. -/
lemma mapLoad_store_other (c : Cache) (k k2 : String) (e : CacheEntry)
    (h : k2 ≠ k) : mapLoad (mapStore c k e) k2 = mapLoad c k2 := by
  unfold mapLoad mapStore
  rw [List.find?_append, List.find?_filter]
  have hk : ((k : String) == k2) = false := by
    simp only [beq_eq_false_iff_ne, ne_eq]
    exact fun hkk => h hkk.symm
  have h2 : ([((k : String), e)].find? (fun p => p.1 == k2)) = none := by
    simp [hk]
  rw [h2, Option.or_none]
  have hfun : (fun (a : String × CacheEntry) =>
      ((a.1 != k) ∧ (a.1 == k2) : Bool)) = fun a => a.1 == k2 := by
    funext a
    by_cases hak : a.1 = k2
    · simp [hak, h]
    · simp [hak]
  rw [hfun]

/-- A deleted key is no longer found. -/
lemma mapLoad_delete_self (c : Cache) (k : String) :
    mapLoad (mapDelete c k) k = none := by
  unfold mapLoad mapDelete
  rw [find?_filter_ne_none]
  rfl

/-- C6: a lookup returns the stored entry under the key exactly when now
is strictly before its expiry; a lookup that finds an expired entry
removes it from the store (the key no longer resolves) and reports a
miss; a lookup of an absent key leaves the store unchanged. -/
theorem proxy_C6 :
    ∀ (cache : Cache) (key : String) (now : Nat),
      (∀ e : CacheEntry, mapLoad cache key = some e →
        ((getCachedResponse cache key now).1 = some e ↔
          now < e.expiresAt)) ∧
      (∀ e : CacheEntry, mapLoad cache key = some e →
        ¬ now < e.expiresAt →
        (getCachedResponse cache key now).1 = none ∧
        (getCachedResponse cache key now).2 = mapDelete cache key ∧
        mapLoad (getCachedResponse cache key now).2 key = none) ∧
      (mapLoad cache key = none →
        getCachedResponse cache key now = (none, cache)) := by
  intro cache key now
  refine ⟨?_, ?_, ?_⟩
  · intro e he
    simp only [getCachedResponse, he]
    by_cases hlt : now < e.expiresAt
    · simp [hlt]
    · simp [hlt]
  · intro e he hge
    have h1 : getCachedResponse cache key now = (none, mapDelete cache key) := by
      simp only [getCachedResponse, he, if_neg hge]
    rw [h1]
    exact ⟨rfl, rfl, mapLoad_delete_self cache key⟩
  · intro hnone
    simp [getCachedResponse, hnone]

/-- An already-expired cache entry, for the C6 witness. -/
def expiredEntry : CacheEntry :=
  { statusCode := 200, headers := [("Content-Type", "text/plain")],
    body := .plain "old".data, cachedAt := 0, expiresAt := 5,
    requestURL := "http://x/y", requestHash := "k" }

/-- Witness for C6: at time 10 the entry that expired at 5 is found,
deleted, and reported as a miss. -/
theorem proxy_C6_witness :
    (getCachedResponse [("k", expiredEntry)] "k" 10).1 = none ∧
    (getCachedResponse [("k", expiredEntry)] "k" 10).2 =
      mapDelete [("k", expiredEntry)] "k" ∧
    mapLoad (getCachedResponse [("k", expiredEntry)] "k" 10).2 "k" =
      none :=
  (proxy_C6 [("k", expiredEntry)] "k" 10).2.1 expiredEntry
    (by decide) (by decide)

/-- `CacheSnapshot` (source): the gob-serialised form of the cache. -/
structure CacheSnapshot where
  entries : List (String × CacheEntry)
  savedAt : Nat
  cacheHits : Int
  cacheMiss : Int

/-- `loadCacheFromDisk` (source), after the file has been read, gunzipped
and gob-decoded into `snap` (the I/O and codec layers are external
inputs here): store every snapshot entry whose expiry lies in the
future, skip the expired ones, and overwrite the hit/miss counters with
the persisted ones only when at least one entry was loaded.  Returns the
cache and the two counters. -/
def loadCacheFromDisk (snap : CacheSnapshot) (now : Nat) (cache0 : Cache)
    (hits0 misses0 : Int) : Cache × Int × Int :=
  let live := snap.entries.filter (fun p => now < p.2.expiresAt)
  let cache := live.foldl (fun c p => mapStore c p.1 p.2) cache0
  if live.length > 0 then (cache, snap.cacheHits, snap.cacheMiss)
  else (cache, hits0, misses0)

/-- Folding in stores whose keys all differ from `k` leaves lookups of
`k` unchanged. -/
lemma mapLoad_foldl_store_of_not_mem (k : String) :
    ∀ (l : List (String × CacheEntry)) (c : Cache),
      (∀ p ∈ l, p.1 ≠ k) →
      mapLoad (l.foldl (fun c p => mapStore c p.1 p.2) c) k =
        mapLoad c k := by
  intro l
  induction l with
  | nil => intro c _; rfl
  | cons q rest ih =>
    intro c hl
    have hq : q.1 ≠ k := hl q (List.mem_cons_self q rest)
    rw [List.foldl_cons,
      ih (mapStore c q.1 q.2) (fun p hp => hl p (List.mem_cons_of_mem _ hp))]
    exact mapLoad_store_other c q.1 k q.2 (Ne.symm hq)

/-- With pairwise-distinct keys, an entry folded into the cache is found
under its key. -/
lemma mapLoad_foldl_store_of_mem (k : String) (e : CacheEntry) :
    ∀ (l : List (String × CacheEntry)) (c : Cache),
      l.Pairwise (fun a b => a.1 ≠ b.1) →
      (k, e) ∈ l →
      mapLoad (l.foldl (fun c p => mapStore c p.1 p.2) c) k = some e := by
  intro l
  induction l with
  | nil => intro c _ h; cases h
  | cons q rest ih =>
    intro c hpw hmem
    rcases List.pairwise_cons.mp hpw with ⟨hq, hrest⟩
    rcases List.mem_cons.mp hmem with hh | hh
    · rw [List.foldl_cons]
      have hk : ∀ p ∈ rest, p.1 ≠ k := by
        intro p hp hpk
        have := hq p hp
        rw [← hh] at this
        exact this hpk.symm
      rw [mapLoad_foldl_store_of_not_mem k rest _ hk, ← hh]
      exact mapLoad_store_self c k e
    · rw [List.foldl_cons]
      exact ih (mapStore c q.1 q.2) hrest hh

/-- In a list with pairwise-distinct keys, a key determines its entry. -/
lemma keys_unique {l : List (String × CacheEntry)}
    (h : l.Pairwise (fun a b => a.1 ≠ b.1)) {k : String} {e e2 : CacheEntry}
    (h1 : (k, e) ∈ l) (h2 : (k, e2) ∈ l) : e = e2 := by
  induction l with
  | nil => cases h1
  | cons q rest ih =>
    rcases List.pairwise_cons.mp h with ⟨hq, hrest⟩
    rcases List.mem_cons.mp h1 with ha | ha
    · rcases List.mem_cons.mp h2 with hb | hb
      · rw [← ha] at hb
        exact ((Prod.mk.injEq _ _ _ _ ▸ hb).2).symm
      · exfalso
        have := hq (k, e2) hb
        rw [← ha] at this
        exact this rfl
    · rcases List.mem_cons.mp h2 with hb | hb
      · exfalso
        have := hq (k, e) ha
        rw [← hb] at this
        exact this rfl
      · exact ih hrest ha hb

/-- C9: loading the persisted snapshot at startup (into the empty
in-memory cache) rehydrates exactly the persisted entries whose
`expires_at` is still in the future — a persisted entry resolves after
the load precisely when it is unexpired, and keys absent from the
snapshot stay absent — and the persisted hit/miss counters replace the
in-memory ones exactly when at least one entry was rehydrated. -/
theorem proxy_C9 :
    ∀ (snap : CacheSnapshot) (now : Nat) (hits0 misses0 : Int),
      snap.entries.Pairwise (fun a b => a.1 ≠ b.1) →
      ((∀ (k : String) (e : CacheEntry), (k, e) ∈ snap.entries →
          (mapLoad (loadCacheFromDisk snap now [] hits0 misses0).1 k =
              some e ↔ now < e.expiresAt)) ∧
        (∀ k : String, (∀ p ∈ snap.entries, p.1 ≠ k) →
          mapLoad (loadCacheFromDisk snap now [] hits0 misses0).1 k =
            none) ∧
        ((loadCacheFromDisk snap now [] hits0 misses0).2 =
          if 0 < (snap.entries.filter
              (fun p => now < p.2.expiresAt)).length
          then (snap.cacheHits, snap.cacheMiss)
          else (hits0, misses0))) := by
  intro snap now hits0 misses0 hpw
  have hcache : (loadCacheFromDisk snap now [] hits0 misses0).1 =
      (snap.entries.filter (fun p => now < p.2.expiresAt)).foldl
        (fun c p => mapStore c p.1 p.2) [] := by
    by_cases hlen : 0 < (snap.entries.filter
        (fun p => now < p.2.expiresAt)).length
    · simp [loadCacheFromDisk, hlen]
    · simp [loadCacheFromDisk, hlen]
  have hpwLive : (snap.entries.filter
      (fun p => now < p.2.expiresAt)).Pairwise (fun a b => a.1 ≠ b.1) :=
    hpw.sublist (List.filter_sublist _)
  refine ⟨?_, ?_, ?_⟩
  · intro k e hmem
    rw [hcache]
    by_cases hlive : now < e.expiresAt
    · have hin : (k, e) ∈ snap.entries.filter
          (fun p => now < p.2.expiresAt) :=
        List.mem_filter.mpr ⟨hmem, by simpa using hlive⟩
      rw [mapLoad_foldl_store_of_mem k e _ [] hpwLive hin]
      simp [hlive]
    · have hnk : ∀ p ∈ snap.entries.filter
          (fun p => now < p.2.expiresAt), p.1 ≠ k := by
        intro p hp hpk
        rcases List.mem_filter.mp hp with ⟨hpmem, hpexp⟩
        have hpe : p.2 = e := by
          have : (k, p.2) ∈ snap.entries := by
            have : p = (k, p.2) := by
              rw [← hpk]
            rw [← this]
            exact hpmem
          exact keys_unique hpw this hmem
        rw [hpe] at hpexp
        exact hlive (by simpa using hpexp)
      rw [mapLoad_foldl_store_of_not_mem k _ [] hnk]
      simp [mapLoad, hlive]
  · intro k hk
    rw [hcache]
    have hnk : ∀ p ∈ snap.entries.filter
        (fun p => now < p.2.expiresAt), p.1 ≠ k := by
      intro p hp
      exact hk p (List.mem_filter.mp hp).1
    rw [mapLoad_foldl_store_of_not_mem k _ [] hnk]
    rfl
  · simp only [loadCacheFromDisk]
    split
    · rfl
    · rfl

/-- A still-live snapshot entry for the C9 witness. -/
def liveEntry : CacheEntry :=
  { statusCode := 200, headers := [], body := .plain "ok".data,
    cachedAt := 0, expiresAt := 100, requestURL := "http://x/z",
    requestHash := "a" }

/-- Witness for C9: a two-entry snapshot with one live and one expired
entry, loaded at time 10, resolves the live key. -/
theorem proxy_C9_witness :
    mapLoad (loadCacheFromDisk
        ⟨[("a", liveEntry), ("b", expiredEntry)], 7, 3, 4⟩
        10 [] 0 0).1 "a" = some liveEntry :=
  ((proxy_C9 ⟨[("a", liveEntry), ("b", expiredEntry)], 7, 3, 4⟩
      10 0 0 (by decide)).1 "a" liveEntry (by decide)).mpr (by decide)

/-- The exact byte string `generateCacheKey` (source) feeds to SHA-256:
method, then URL, then for each contributing header a `Name:`/value
pair, all concatenated with no separator between fields.  Contributing
headers are `Authorization` and `Content-Type` when present, then the
configured extra key headers when present. -/
def generateCacheKeyInput (keyHeaders : List String) (method url : String)
    (headers : HeaderMap) : String :=
  let s0 := method ++ url
  let auth := headerGet headers "Authorization"
  let s1 := if auth != "" then s0 ++ "Authorization:" ++ auth else s0
  let ct := headerGet headers "Content-Type"
  let s2 := if ct != "" then s1 ++ "Content-Type:" ++ ct else s1
  keyHeaders.foldl
    (fun s name =>
      let v := headerGet headers name
      if v != "" then s ++ (name ++ ":") ++ v else s) s2

/-- `generateCacheKey` (source): the hex SHA-256 digest of the input
bytes.  The digest function is a parameter: every property proved below
holds for the real SHA-256 because it holds for every function of the
input bytes. -/
def generateCacheKey (hash : String → String) (keyHeaders : List String)
    (method url : String) (headers : HeaderMap) : String :=
  hash (generateCacheKeyInput keyHeaders method url headers)

/-- C10: the cache key concatenates its fields with no separator, so the
key function is not injective: the distinct requests `GET /ab` and
`GE T/ab` produce the same hash input, hence the same cache key for
every digest function (in particular SHA-256), whatever the headers and
configured key headers are. -/
theorem proxy_C10 :
    (("GET", "/ab") ≠ (("GE", "T/ab") : String × String)) ∧
    ∀ (hash : String → String) (keyHeaders : List String)
      (headers : HeaderMap),
      generateCacheKey hash keyHeaders "GET" "/ab" headers =
        generateCacheKey hash keyHeaders "GE" "T/ab" headers := by
  constructor
  · decide
  · intro hash keyHeaders headers
    have hinput : generateCacheKeyInput keyHeaders "GET" "/ab" headers =
        generateCacheKeyInput keyHeaders "GE" "T/ab" headers := by
      unfold generateCacheKeyInput
      have e : ("GET" : String) ++ "/ab" = "GE" ++ "T/ab" := by decide
      rw [e]
    unfold generateCacheKey
    rw [hinput]

/-- All suffixes of a byte list, longest first. -/
def tailsL : List Char → List (List Char)
  | [] => [[]]
  | c :: s => (c :: s) :: tailsL s

/-- Shallow embedding of the anchored wildcard regex built by
`matchURLPattern` (source): `regexp.QuoteMeta` escapes every regex
metacharacter, each escaped `\*` is replaced by `.*`, and the result is
wrapped in `^...$` and run through `regexp.MatchString`.  The resulting
regex is a sequence of literal characters and `.*` gaps anchored at both
ends, so matching means: consume literals one-for-one, and at each `*`
match any suffix split — which is what this recursion computes. -/
def globMatch : List Char → List Char → Bool
  | [], s => s.isEmpty
  | c :: ps, s =>
    if c = '*' then
      (tailsL s).any (fun t => globMatch ps t)
    else
      match s with
      | [] => false
      | d :: s2 => c == d && globMatch ps s2

/-- Declarative semantics of the same anchored regex, written from the
spec wording: the empty pattern matches exactly the empty string, a
literal character matches itself, and `*` (that is, `.*`) absorbs any
prefix of the subject. -/
inductive GlobSem : List Char → List Char → Prop
  | nil : GlobSem [] []
  | lit {c : Char} {ps s : List Char} (hc : c ≠ '*') :
      GlobSem ps s → GlobSem (c :: ps) (c :: s)
  | starEmpty {ps s : List Char} : GlobSem ps s → GlobSem ('*' :: ps) s
  | starMore {ps s : List Char} (c : Char) :
      GlobSem ('*' :: ps) s → GlobSem ('*' :: ps) (c :: s)

/-- A list is a suffix of itself in `tailsL`. -/
lemma self_mem_tailsL (s : List Char) : s ∈ tailsL s := by
  cases s <;> simp [tailsL]

/-- A matching suffix yields a `*`-pattern match of the whole subject. -/
lemma globSem_of_tail {ps : List Char} :
    ∀ {s t : List Char}, t ∈ tailsL s → GlobSem ps t →
      GlobSem ('*' :: ps) s := by
  intro s
  induction s with
  | nil =>
    intro t ht h
    simp [tailsL] at ht
    subst ht
    exact GlobSem.starEmpty h
  | cons d s2 ih =>
    intro t ht h
    have ht2 : t = d :: s2 ∨ t ∈ tailsL s2 := by simpa [tailsL] using ht
    rcases ht2 with h1 | h1
    · subst h1
      exact GlobSem.starEmpty h
    · exact GlobSem.starMore d (ih h1 h)

/-- Unfolding of the matcher at a `*`. -/
lemma globMatch_star (ps s : List Char) :
    globMatch ('*' :: ps) s = (tailsL s).any (fun t => globMatch ps t) := by
  simp [globMatch]

/-- Unfolding of the matcher at a literal character. -/
lemma globMatch_lit {c : Char} (hc : c ≠ '*') (ps : List Char) :
    (globMatch (c :: ps) [] = false) ∧
    ∀ d s2, globMatch (c :: ps) (d :: s2) = (c == d && globMatch ps s2) := by
  constructor
  · simp [globMatch, hc]
  · intro d s2
    simp [globMatch, hc]

/-- The executable wildcard matcher agrees with the declarative anchored
regex semantics. -/
lemma globMatch_iff_globSem :
    ∀ (p s : List Char), globMatch p s = true ↔ GlobSem p s := by
  intro p
  induction p with
  | nil =>
    intro s
    constructor
    · intro h
      have hs : s = [] := by simpa [globMatch] using h
      subst hs
      exact GlobSem.nil
    · intro h
      cases h
      simp [globMatch]
  | cons c ps ih =>
    intro s
    by_cases hc : c = '*'
    · subst hc
      constructor
      · intro h
        rw [globMatch_star, List.any_eq_true] at h
        rcases h with ⟨t, ht, hm⟩
        exact globSem_of_tail ht ((ih t).mp hm)
      · intro h
        rw [globMatch_star, List.any_eq_true]
        revert h
        induction s with
        | nil =>
          intro h
          cases h with
          | starEmpty hsub => exact ⟨[], self_mem_tailsL [], (ih []).mpr hsub⟩
        | cons d s2 ihs =>
          intro h
          cases h with
          | lit hcc hsub => exact absurd rfl hcc
          | starEmpty hsub =>
            exact ⟨d :: s2, self_mem_tailsL _, (ih _).mpr hsub⟩
          | starMore _ hsub =>
            rcases ihs hsub with ⟨t, ht, hm⟩
            refine ⟨t, ?_, hm⟩
            simpa [tailsL] using Or.inr ht
    · constructor
      · intro h
        cases s with
        | nil =>
          rw [(globMatch_lit hc ps).1] at h
          simp at h
        | cons d s2 =>
          rw [(globMatch_lit hc ps).2 d s2] at h
          have h2 : c = d ∧ globMatch ps s2 = true := by simpa using h
          rcases h2 with ⟨hcd, hm⟩
          subst hcd
          exact GlobSem.lit hc ((ih s2).mp hm)
      · intro h
        cases h with
        | lit hcc hsub =>
          rw [(globMatch_lit hc ps).2 c _]
          simp [(ih _).mpr hsub]
        | starEmpty hsub => exact absurd rfl hc
        | starMore _ hsub => exact absurd rfl hc

/-- `matchURLPattern` (source): wildcard match of the whole URL against
the pattern. -/
def matchURLPattern (urlStr pattern : String) : Bool :=
  globMatch pattern.data urlStr.data

/-- `shouldCacheURL` (source): with no configured patterns every URL is
cacheable; otherwise the URL must match at least one pattern. -/
def shouldCacheURL (patterns : List String) (urlStr : String) : Bool :=
  if patterns.isEmpty then true
  else patterns.any (fun p => matchURLPattern urlStr p)

/-- The mutable caching state of the proxy process: the response cache
and the hit/miss counters. -/
structure ProxyState where
  cache : Cache
  hits : Int
  misses : Int

/-- The cache-lookup step at the top of `bufferedProxyRequest` (source):
when caching is enabled the key is computed and looked up for every
request — there is no URL-pattern test on this path — counting a hit
(and serving the entry) or a miss.  Returns the entry served from cache,
if any, and the updated state. -/
def bufferedLookupPhase (cacheEnabled : Bool) (hash : String → String)
    (keyHeaders : List String) (method urlStr : String)
    (reqHeaders : HeaderMap) (now : Nat) (st : ProxyState) :
    Option CacheEntry × ProxyState :=
  if cacheEnabled then
    let key := generateCacheKey hash keyHeaders method urlStr reqHeaders
    let r := getCachedResponse st.cache key now
    match r.1 with
    | some entry =>
      (some entry,
        { cache := r.2, hits := st.hits + 1, misses := st.misses })
    | none =>
      (none, { cache := r.2, hits := st.hits, misses := st.misses + 1 })
  else
    (none, st)

/-- The cache-store step of `bufferedProxyRequest` (source): the response
is stored only when caching is enabled and the absolute upstream URL
passes `shouldCacheURL`. -/
def bufferedStorePhase (cacheEnabled : Bool) (patterns : List String)
    (hash : String → String) (keyHeaders : List String)
    (method urlStr : String) (reqHeaders : HeaderMap) (status : Int)
    (respHeaders : HeaderMap) (body : ByteStream) (now ttl : Nat)
    (cache : Cache) : Cache :=
  if cacheEnabled && shouldCacheURL patterns urlStr then
    cacheResponse cache
      (generateCacheKey hash keyHeaders method urlStr reqHeaders)
      status respHeaders body urlStr now ttl
  else
    cache

/-- Counterexample to C8: with caching enabled and the single pattern
`http://allowed.example/*`, a request for `http://other.example/x` does
not match the patterns, yet the lookup is still attempted — the miss
counter advances — contradicting the claim that the cache lookup is
attempted only for pattern-matching URLs. -/
theorem proxy_C8_cex :
    shouldCacheURL ["http://allowed.example/*"]
        "http://other.example/x" = false ∧
    (bufferedLookupPhase true (fun s => s) [] "GET"
        "http://other.example/x" [] 0
        { cache := [], hits := 0, misses := 0 }).2.misses = 1 := by
  constructor
  · decide
  · rfl

/-- C8 (amended): the cache store is gated by the URL patterns — with
patterns configured the response is stored only when the absolute
upstream URL wildcard-matches at least one of them (in the sense of the
anchored `*`-to-`.*` regex translation), and with no patterns every URL
is cacheable — but the cache lookup is not gated: whenever caching is
enabled the lookup is attempted for every request (exactly one of the
hit or miss counters advances), regardless of the patterns. -/
theorem proxy_C8 :
    (∀ u : String, shouldCacheURL [] u = true) ∧
    (∀ (pats : List String) (u : String), pats ≠ [] →
      (shouldCacheURL pats u = true ↔
        ∃ p ∈ pats, matchURLPattern u p = true)) ∧
    (∀ u p : String,
      matchURLPattern u p = true ↔ GlobSem p.data u.data) ∧
    (∀ (enabled : Bool) (pats : List String) (hash : String → String)
      (keyHeaders : List String) (method urlStr : String)
      (reqHeaders : HeaderMap) (status : Int) (respHeaders : HeaderMap)
      (body : ByteStream) (now ttl : Nat) (cache : Cache),
      (¬(enabled = true ∧ shouldCacheURL pats urlStr = true) →
        bufferedStorePhase enabled pats hash keyHeaders method urlStr
          reqHeaders status respHeaders body now ttl cache = cache) ∧
      (enabled = true → shouldCacheURL pats urlStr = true →
        bufferedStorePhase enabled pats hash keyHeaders method urlStr
          reqHeaders status respHeaders body now ttl cache =
          cacheResponse cache
            (generateCacheKey hash keyHeaders method urlStr reqHeaders)
            status respHeaders body urlStr now ttl)) ∧
    (∀ (hash : String → String) (keyHeaders : List String)
      (method urlStr : String) (reqHeaders : HeaderMap) (now : Nat)
      (st : ProxyState),
      (bufferedLookupPhase true hash keyHeaders method urlStr reqHeaders
          now st).2.hits +
        (bufferedLookupPhase true hash keyHeaders method urlStr
          reqHeaders now st).2.misses = st.hits + st.misses + 1 ∧
      (bufferedLookupPhase false hash keyHeaders method urlStr reqHeaders
        now st) = (none, st)) := by
  refine ⟨?_, ?_, ?_, ?_, ?_⟩
  · intro u
    simp [shouldCacheURL]
  · intro pats u hne
    have : pats.isEmpty = false := by
      simpa [List.isEmpty_iff] using hne
    simp [shouldCacheURL, this, List.any_eq_true]
  · intro u p
    exact globMatch_iff_globSem p.data u.data
  · intro enabled pats hash keyHeaders method urlStr reqHeaders status
      respHeaders body now ttl cache
    constructor
    · intro hng
      have hcond : (enabled && shouldCacheURL pats urlStr) = false := by
        rcases Bool.eq_false_or_eq_true enabled with he | he
        · rcases Bool.eq_false_or_eq_true
              (shouldCacheURL pats urlStr) with hs | hs
          · exact absurd ⟨he, hs⟩ hng
          · rw [hs, Bool.and_false]
        · rw [he, Bool.false_and]
      simp [bufferedStorePhase, hcond]
    · intro he hs
      simp [bufferedStorePhase, he, hs]
  · intro hash keyHeaders method urlStr reqHeaders now st
    constructor
    · rcases hr : (getCachedResponse st.cache
          (generateCacheKey hash keyHeaders method urlStr reqHeaders)
          now).1 with _ | e
      · simp only [bufferedLookupPhase, if_true, hr]
        omega
      · simp only [bufferedLookupPhase, if_true, hr]
        omega
    · rfl

/-- Witness for C8 (amended): the allowed-pattern configuration stores a
response for a matching URL as `cacheResponse` would, and the lookup on
the state with zero counters advances the counter sum to one. -/
theorem proxy_C8_witness :
    bufferedStorePhase true ["http://allowed.example/*"] (fun s => s) []
        "GET" "http://allowed.example/data" [] 200 [] (.plain "b".data)
        0 60 [] =
      cacheResponse []
        (generateCacheKey (fun s => s) [] "GET"
          "http://allowed.example/data" [])
        200 [] (.plain "b".data) "http://allowed.example/data" 0 60 ∧
    (bufferedLookupPhase true (fun s => s) [] "GET"
          "http://allowed.example/data" [] 0
          { cache := [], hits := 0, misses := 0 }).2.hits +
        (bufferedLookupPhase true (fun s => s) [] "GET"
          "http://allowed.example/data" [] 0
          { cache := [], hits := 0, misses := 0 }).2.misses = 0 + 0 + 1 :=
  ⟨(proxy_C8.2.2.2.1 true ["http://allowed.example/*"] (fun s => s) []
      "GET" "http://allowed.example/data" [] 200 [] (.plain "b".data)
      0 60 []).2 rfl (by decide),
    (proxy_C8.2.2.2.2 (fun s => s) [] "GET" "http://allowed.example/data"
      [] 0 { cache := [], hits := 0, misses := 0 }).1⟩

/-- One pass of the loop in `applyBodyReplacements` (source): a regex
replacement with a compiled pattern runs `regexp.ReplaceAll` (splicing
the replacement over its match spans); any other replacement — plain
text, or a regex whose pattern failed to compile — is a global
`bytes.ReplaceAll`. -/
def applyOneReplacement (result : List Char) (rep : BodyReplacement) :
    List Char :=
  match rep.isRegex, rep.compiledRegex with
  | true, some re => spliceSpans result (re.matchSpans result) rep.replace.data
  | _, _ => replaceAllL result rep.find.data rep.replace.data

/-- `applyBodyReplacements` (source): fold every replacement over the
body in declaration order. -/
def applyBodyReplacements (body : List Char)
    (reps : List BodyReplacement) : List Char :=
  reps.foldl applyOneReplacement body

/-- The rewrite block of `bufferedProxyRequest` (source): when a
rewrite-only rule matched and the body is non-empty, gunzip the body if
the response declares `Content-Encoding: gzip`, apply the replacements
to the unpacked bytes, and re-gzip; a declared-gzip body that fails to
unpack gets the replacements applied to its raw bytes.  Re-compression
into a `bytes.Buffer` cannot fail, so the source branch that drops
`Content-Encoding` on a compression error is dead and the headers pass
through unchanged. -/
def applyRewriteSection (respHeaders : HeaderMap) (body : ByteStream)
    (matched : Option ResponseOverride) : ByteStream × HeaderMap :=
  match matched with
  | none => (body, respHeaders)
  | some o =>
    if o.bodyReplacements.isEmpty = false ∧ body.byteLen > 0 then
      if lowerStr (headerGet respHeaders "Content-Encoding") == "gzip" then
        match decompressGzip body with
        | some d =>
          (compressGzip (applyBodyReplacements d o.bodyReplacements),
            respHeaders)
        | none =>
          (ByteStream.plain
              (applyBodyReplacements body.rawBytes o.bodyReplacements),
            respHeaders)
      else
        (ByteStream.plain
            (applyBodyReplacements body.rawBytes o.bodyReplacements),
          respHeaders)
    else
      (body, respHeaders)

/-- A response as delivered to the client: headers, status code, body
bytes.  The body field is exactly what `w.Write` sends, so its byte
length is the number of body bytes written. -/
structure ClientResponse where
  headers : HeaderMap
  status : Int
  body : ByteStream
deriving DecidableEq, Repr

/-- The response-sending tail of `bufferedProxyRequest` (source): copy
the (possibly rewritten) response headers with scrubbing, overwrite
`Content-Length` with the final body length when the body is non-empty,
and send status and body. -/
def bufferedSendPhase (streaming : Bool) (respStatus : Int)
    (respHeaders : HeaderMap) (respBody : ByteStream) : ClientResponse :=
  let h := copyHeaders streaming [] respHeaders
  let h2 := if respBody.byteLen > 0 then
      headerSet h "Content-Length" (toString respBody.byteLen)
    else h
  { headers := h2, status := respStatus, body := respBody }

/-- `serveCachedResponse` (source): copy the stored headers with
scrubbing, add the `X-Cache` markers, and send the stored status and
body.  `Content-Length` is not recomputed on this path.  The RFC 3339
rendering of the expiry tick is abstracted as `toString`. -/
def serveCachedResponse (streaming : Bool) (entry : CacheEntry) :
    ClientResponse :=
  let h := copyHeaders streaming [] entry.headers
  let h2 := headerSet h "X-Cache" "HIT"
  let h3 := headerSet h2 "X-Cache-Expires" (toString entry.expiresAt)
  { headers := h3, status := entry.statusCode, body := entry.body }

/-- `handleOverride` (source): assemble the mock response.  `fs` models
reading `body_file` from disk; a read failure (`none`) takes the 500
error path, modelled as no mock response.  Headers come from the rule,
then replacements run on a non-empty body, then `Content-Length` is set
when the body is non-empty. -/
def handleOverride (fs : String → Option (List Char))
    (o : ResponseOverride) : Option ClientResponse :=
  let h0 : HeaderMap :=
    o.headers.foldl (fun h p => headerSet h p.1 p.2) []
  let body0 : Option (List Char) :=
    if o.bodyFile != "" then fs o.bodyFile
    else if o.bodyText != "" then some o.bodyText.data
    else some []
  match body0 with
  | none => none
  | some b0 =>
    let b1 := if o.bodyReplacements.isEmpty = false ∧ b0.length > 0 then
        applyBodyReplacements b0 o.bodyReplacements
      else b0
    let h1 := if b1.length > 0 then
        headerSet h0 "Content-Length" (toString b1.length)
      else h0
    some { headers := h1, status := o.statusCode, body := .plain b1 }

/-- What it means for one replacement to have no match on a body: a
compiled regex replacement yields no spans; any other replacement has a
zero `bytes.Count` (which rules out an empty `find`, whose count is
always positive). -/
def zeroMatches (d : List Char) (rep : BodyReplacement) : Prop :=
  match rep.isRegex, rep.compiledRegex with
  | true, some re => re.matchSpans d = []
  | _, _ => countOccur d rep.find.data = 0

/-- A scan that counts no occurrence replaces nothing. -/
lemma replaceA_of_countA_zero :
    ∀ (s pat rep : List Char), countA s pat = 0 →
      replaceA s pat rep = s := by
  intro s pat rep
  induction s, pat, rep using replaceA.induct with
  | case1 pat rep => intro _; simp [replaceA]
  | case2 pat rep c s2 h ih =>
    intro hcnt
    exfalso
    simp [countA, h] at hcnt
  | case3 pat rep c s2 h ih =>
    intro hcnt
    have h2 : countA s2 pat = 0 := by simpa [countA, h] using hcnt
    simp [replaceA, h, ih h2]

/-- `bytes.ReplaceAll` with a zero `bytes.Count` is the identity. -/
lemma replaceAllL_of_count_zero (s pat rep : List Char)
    (h : countOccur s pat = 0) : replaceAllL s pat rep = s := by
  cases pat with
  | nil => simp [countOccur] at h
  | cons p ps =>
    simp only [countOccur] at h
    simp only [replaceAllL]
    exact replaceA_of_countA_zero s (p :: ps) rep h

/-- A replacement with no match leaves the body unchanged. -/
lemma applyOneReplacement_of_zero (d : List Char) (rep : BodyReplacement)
    (h : zeroMatches d rep) : applyOneReplacement d rep = d := by
  unfold zeroMatches at h
  unfold applyOneReplacement
  rcases rep with ⟨f, r, ir, cre⟩
  cases ir with
  | true =>
    cases cre with
    | none => exact replaceAllL_of_count_zero _ _ _ h
    | some re =>
      simp only at h
      simp [h, spliceSpans]
  | false => exact replaceAllL_of_count_zero _ _ _ h

/-- Replacements that collectively have no match leave the body
unchanged. -/
lemma applyBodyReplacements_of_zero (d : List Char) :
    ∀ reps : List BodyReplacement,
      (∀ rep ∈ reps, zeroMatches d rep) →
      applyBodyReplacements d reps = d := by
  intro reps
  induction reps with
  | nil => intro _; rfl
  | cons rep rest ih =>
    intro h
    have h1 : applyOneReplacement d rep = d :=
      applyOneReplacement_of_zero d rep (h rep (List.mem_cons_self rep rest))
    have h2 : ∀ x ∈ rest, zeroMatches d x :=
      fun x hx => h x (List.mem_cons_of_mem _ hx)
    simp only [applyBodyReplacements, List.foldl_cons, h1]
    exact ih h2

/-- C5 (amended): when the matched rewrite rule's replacements
collectively have no match on the (decompressed) origin body, a plain
(non-gzip-encoded) origin body is delivered byte-identical to the origin
bytes; an origin body declared `Content-Encoding: gzip` keeps its
decompressed content byte-identical, but its gzip envelope is
regenerated — decompressed and recompressed with MTIME 0 — so the wire
bytes are in general not identical to the origin gzip bytes. -/
theorem proxy_C5 :
    ∀ (o : ResponseOverride) (respHeaders : HeaderMap) (d : List Char),
      o.bodyReplacements.isEmpty = false →
      (∀ rep ∈ o.bodyReplacements, zeroMatches d rep) →
      (applyRewriteSection respHeaders (.plain d) (some o) =
        (.plain d, respHeaders)) ∧
      (∀ mtime : Nat,
        (lowerStr (headerGet respHeaders "Content-Encoding") ==
          "gzip") = true →
        applyRewriteSection respHeaders (.gzipped mtime d) (some o) =
          (.gzipped 0 d, respHeaders) ∧
        decompressGzip (ByteStream.gzipped 0 d) =
          decompressGzip (ByteStream.gzipped mtime d)) := by
  intro o respHeaders d hreps hzero
  have happ : applyBodyReplacements d o.bodyReplacements = d :=
    applyBodyReplacements_of_zero d o.bodyReplacements hzero
  constructor
  · simp only [applyRewriteSection]
    by_cases hcond :
        o.bodyReplacements.isEmpty = false ∧
          (ByteStream.plain d).byteLen > 0
    · rw [if_pos hcond]
      cases hce : (lowerStr (headerGet respHeaders "Content-Encoding") ==
          "gzip") with
      | false => simp [hce, ByteStream.rawBytes, happ]
      | true => simp [hce, decompressGzip, ByteStream.rawBytes, happ]
    · rw [if_neg hcond]
  · intro mtime hce
    constructor
    · simp only [applyRewriteSection]
      rw [if_pos ⟨hreps, by simp [ByteStream.byteLen]⟩, if_pos hce]
      simp [decompressGzip, compressGzip, happ]
    · rfl

/-- The rewrite-only rule of the C5 scenario: one plain-text replacement
whose pattern `x` does not occur in the body `abc`. -/
def c5Rep : BodyReplacement :=
  { find := "x", replace := "y", isRegex := false, compiledRegex := none }

/-- The C5 scenario rule carrying only `c5Rep`. -/
def c5Rule : ResponseOverride :=
  { name := "rw", method := "*", urlPattern := "/a", isRegex := false,
    statusCode := 200, headers := [], bodyFile := "", bodyText := "",
    bodyReplacements := [c5Rep], enabled := true, triggerAfter := 0,
    maxTriggers := -1, resetAfter := 0, compiledRegex := none,
    requestCount := 0, triggerCount := 0 }

/-- Counterexample to C5: the replacement `x` has zero matches on the
gzip body `abc`, yet the delivered bytes are not the origin bytes — the
origin envelope carried MTIME 5 and the code re-gzips with MTIME 0. -/
theorem proxy_C5_cex :
    countOccur "abc".data "x".data = 0 ∧
    (applyRewriteSection [("Content-Encoding", "gzip")]
        (.gzipped 5 "abc".data) (some c5Rule)).1 =
      ByteStream.gzipped 0 "abc".data ∧
    ByteStream.gzipped 0 "abc".data ≠ ByteStream.gzipped 5 "abc".data := by
  have hce : (lowerStr (headerGet [("Content-Encoding", "gzip")]
      "Content-Encoding") == "gzip") = true := by decide
  have happ : applyBodyReplacements "abc".data c5Rule.bodyReplacements =
      "abc".data := by
    simp only [c5Rule, applyBodyReplacements, List.foldl_cons,
      List.foldl_nil, applyOneReplacement, c5Rep, replaceAllL]
    exact replaceA_of_countA_zero _ _ _ (by simp [countA, startsWithL])
  refine ⟨by simp [countOccur, countA, startsWithL], ?_, by decide⟩
  simp only [applyRewriteSection]
  rw [if_pos ⟨by decide, by decide⟩, if_pos hce]
  simp [decompressGzip, compressGzip, happ]

/-- Witness for C5 (amended): the scenario rule on body `abc` with an
origin envelope MTIME of 5. -/
theorem proxy_C5_witness :
    applyRewriteSection [("Content-Encoding", "gzip")]
        (.gzipped 5 "abc".data) (some c5Rule) =
      (.gzipped 0 "abc".data, [("Content-Encoding", "gzip")]) ∧
    decompressGzip (ByteStream.gzipped 0 "abc".data) =
      decompressGzip (ByteStream.gzipped 5 "abc".data) :=
  (proxy_C5 c5Rule [("Content-Encoding", "gzip")] "abc".data
    (by decide)
    (by
      intro rep hrep
      simp only [c5Rule, List.mem_singleton] at hrep
      subst hrep
      simp only [zeroMatches, c5Rep]
      simp [countOccur, countA, startsWithL])).2 5 (by decide)

/-- The rewrite rule of the C4 scenario: replace the 3-byte body `abc`
by the 6-byte body `abcdef`. -/
def c4Rep : BodyReplacement :=
  { find := "abc", replace := "abcdef", isRegex := false,
    compiledRegex := none }

/-- The C4 scenario rule carrying only `c4Rep`. -/
def c4Rule : ResponseOverride :=
  { name := "grow", method := "*", urlPattern := "/abc", isRegex := false,
    statusCode := 200, headers := [], bodyFile := "", bodyText := "",
    bodyReplacements := [c4Rep], enabled := true, triggerAfter := 0,
    maxTriggers := -1, resetAfter := 0, compiledRegex := none,
    requestCount := 0, triggerCount := 0 }

/-- The origin response headers of the C4 scenario: the origin correctly
declared its 3-byte body. -/
def c4OriginHeaders : HeaderMap :=
  [("Content-Type", "text/plain"), ("Content-Length", "3")]

/-- The entry that `cacheResponse` stores in the C4 scenario: origin
headers (still saying `Content-Length: 3`) with the rewritten 6-byte
body. -/
def c4Entry : CacheEntry :=
  { statusCode := 200, headers := c4OriginHeaders,
    body := .plain "abcdef".data, cachedAt := 0, expiresAt := 60,
    requestURL := "http://o/abc", requestHash := "key" }

/-- C4: evaluation of the code at the failing input.  The rewrite grows
the origin body `abc` (3 bytes, declared by `Content-Length: 3`) to
`abcdef` (6 bytes).  The fresh buffered response is consistent — it
overwrites `Content-Length` with 6 and writes 6 bytes — and so is the
mock path (`MOCK` gives `Content-Length: 4` with 4 bytes written).  But
the cache stores the rewritten body under the origin headers, and the
cache-hit replay copies the stored `Content-Length: 3` without
recomputing it while writing 6 body bytes, violating the claimed
invariant. -/
theorem proxy_C4_bug :
    (applyRewriteSection c4OriginHeaders (.plain "abc".data)
        (some c4Rule)).1 = .plain "abcdef".data ∧
    (headerGet (bufferedSendPhase false 200 c4OriginHeaders
        (.plain "abcdef".data)).headers "Content-Length" = "6" ∧
      (bufferedSendPhase false 200 c4OriginHeaders
        (.plain "abcdef".data)).body.byteLen = 6) ∧
    ((handleOverride (fun _ => none) bindingsRule).map
        (fun r => (headerGet r.headers "Content-Length",
          r.body.byteLen)) = some ("4", 4)) ∧
    mapLoad (cacheResponse [] "key" 200 c4OriginHeaders
        (.plain "abcdef".data) "http://o/abc" 0 60) "key" =
      some c4Entry ∧
    headerGet (serveCachedResponse false c4Entry).headers
        "Content-Length" = "3" ∧
    (serveCachedResponse false c4Entry).body.byteLen = 6 := by
  refine ⟨?_, by decide, by decide, by decide, by decide, by decide⟩
  have hce : (lowerStr (headerGet c4OriginHeaders "Content-Encoding") ==
      "gzip") = false := by decide
  have happ : applyBodyReplacements "abc".data c4Rule.bodyReplacements =
      "abcdef".data := by
    simp only [c4Rule, applyBodyReplacements, List.foldl_cons,
      List.foldl_nil, applyOneReplacement, c4Rep, replaceAllL]
    simp [replaceA, startsWithL]
  simp only [applyRewriteSection]
  rw [if_pos ⟨by decide, by decide⟩]
  simp [hce, ByteStream.rawBytes, happ]

end ProxyServer
